import Mathlib

/-!
The account of package `wallet` (`wallet/account.go`).

A shallow embedding of `src/wallet/account.go` (package `wallet`).

* Go values of type `*Account` are pointers into a heap of `Account` objects; the methods
  have pointer receivers and mutate the object in place, so every method is a
  computation over the heap that takes the receiver pointer as its first argument.
* A run-time panic (nil pointer dereference) is the result `none`; the heap survives it.
* Go's `(value, error)` results are pairs whose second component is `Option Error`
  (`none` is the nil error).
* `uint64` fields are natural numbers; `++` is addition modulo `2 ^ 64`.
* The functions of the imported packages (`ethermint/crypto/hd`,
  `ethermint/crypto/ethsecp256k1`, `cosmos-sdk/crypto/keys/secp256k1`,
  `cosmos-sdk/types/bech32`) and `NewMnemonic` are parameters, collected in `Prims`.
-/

namespace Wallet

/-! ## Data model -/

/-- A Go byte slice. -/
abbrev Bytes := List Nat

/-- A non-nil Go `error` value; Go's `error` is `Option Error`. -/
abbrev Error := String

/-- The number of values of a `uint64`. -/
def uint64Size : Nat := 2 ^ 64

/-- The struct `ethsecp256k1.PrivKey{Key: bz}`. -/
structure EthSecp256k1.PrivKey where
  Key : Bytes
  deriving DecidableEq, Repr

/-- The struct `ethsecp256k1.PubKey`. -/
structure EthSecp256k1.PubKey where
  Key : Bytes
  deriving DecidableEq, Repr

/-- The struct `secp256k1.PubKey{Key: ...}` of the legacy curve. -/
structure Secp256k1.PubKey where
  Key : Bytes
  deriving DecidableEq, Repr

/-- The value `ecdsa.PrivateKey` of the Go standard library. -/
structure ECDSAPrivateKey where
  D : Nat
  X : Nat
  Y : Nat
  deriving DecidableEq, Repr

/-- The value behind the `*Mnemonic` that `NewMnemonic` returns. -/
structure Mnemonic where
  entropy : Bytes
  deriving DecidableEq, Repr

/-- The constant `Bech32Prefix`. -/
def Bech32Prefix : String := "d0"

/-- The struct `Account`. The two key fields are pointers, `none` is nil. -/
structure Account where
  privateKeyTM : Option EthSecp256k1.PrivKey
  publicKeyTM : Option EthSecp256k1.PubKey
  address : String
  legacyAddress : String
  chainID : String
  accountNumber : Nat
  sequence : Nat
  deriving DecidableEq, Repr

/-- The zero value of `Account`, as declared by `var result Account`. -/
def Account.zero : Account :=
  { privateKeyTM := none, publicKeyTM := none, address := "", legacyAddress := "",
    chainID := "", accountNumber := 0, sequence := 0 }

/-- The functions and constants that `account.go` takes from other packages and files.
All of them are pure functions of their arguments. -/
structure Prims where
  /-- The function `NewMnemonic(password)`; the first argument is the randomness it draws. -/
  newMnemonic : Bytes → String → Option Mnemonic × Option Error
  /-- The method `mnemonic.Words()`. -/
  mnemonicWords : Mnemonic → String
  /-- The constant `ethermint.BIP44HDPath`. -/
  bip44HDPath : String
  /-- The function `ethermintHd.EthSecp256k1.Derive()` applied to words, password, path. -/
  hdDerive : String → String → String → Bytes × Option Error
  /-- The method `PrivKey.PubKey()` followed by the assertion to `*ethsecp256k1.PubKey`:
  the public key of an `ethsecp256k1` private key is an `ethsecp256k1` public key. -/
  privPubKey : EthSecp256k1.PrivKey → EthSecp256k1.PubKey
  /-- The method `Address()` of `ethsecp256k1.PubKey`. -/
  pubAddress : EthSecp256k1.PubKey → Bytes
  /-- The method `Bytes()` of `ethsecp256k1.PubKey`. -/
  pubBytes : EthSecp256k1.PubKey → Bytes
  /-- The method `Address()` of `secp256k1.PubKey`. -/
  legacyPubAddress : Secp256k1.PubKey → Bytes
  /-- The function `bech32.ConvertAndEncode(hrp, data)`. -/
  bech32ConvertAndEncode : String → Bytes → String × Option Error
  /-- The method `PrivKey.ToECDSA()`. -/
  privToECDSA : EthSecp256k1.PrivKey → Option ECDSAPrivateKey × Option Error
  /-- The method `PrivKey.Sign(bytesToSign)`. -/
  privSign : EthSecp256k1.PrivKey → Bytes → Bytes × Option Error

/-! ## Heap and computations -/

/-- A pointer of type `*Account`: `none` is nil, `some r` is the address `r`. -/
abbrev Ptr := Option Nat

/-- The heap: the `Account` objects allocated so far and the next free address. -/
structure Heap where
  objs : Nat → Option Account
  next : Nat

/-- The heap with the object at address `r` replaced by `a`. -/
def Heap.put (h : Heap) (r : Nat) (a : Account) : Heap :=
  { h with objs := fun i => if i = r then some a else h.objs i }

/-- The heap after allocating a fresh object holding `a` at the next free address. -/
def Heap.push (h : Heap) (a : Account) : Heap :=
  { objs := fun i => if i = h.next then some a else h.objs i, next := h.next + 1 }

/-- A computation over the heap; the result `none` is a panic. -/
def M (α : Type) : Type := Heap → Option α × Heap

/-- The computation that returns `a` and leaves the heap alone. -/
def M.pure {α : Type} (a : α) : M α := fun h => (some a, h)

/-- Sequencing; a panic of the first computation ends the run. -/
def M.bind {α β : Type} (m : M α) (f : α → M β) : M β := fun h =>
  match m h with
  | (some a, h') => f a h'
  | (none, h') => (none, h')

instance : Monad M where
  pure := M.pure
  bind := M.bind

/-- Dereference of a pointer to a key: nil panics. -/
def M.deref {α : Type} (p : Option α) : M α := fun h => (p, h)

/-- Read of the object `*acc`: a nil (or dangling) pointer panics. -/
def M.load (acc : Ptr) : M Account := fun h =>
  match acc with
  | none => (none, h)
  | some r => (h.objs r, h)

/-- Write of the object `*acc`: a nil (or dangling) pointer panics. -/
def M.store (acc : Ptr) (a : Account) : M Unit := fun h =>
  match acc with
  | none => (none, h)
  | some r =>
    match h.objs r with
    | none => (none, h)
    | some _ => (some (), h.put r a)

/-- Allocation of a fresh object holding `a`, as in `&result`. -/
def M.alloc (a : Account) : M Ptr := fun h =>
  (some (some h.next), h.push a)

/-! ## Constructors -/

/-- The function `NewAccountFromMnemonicWords`. -/
def NewAccountFromMnemonicWords (P : Prims) (words password : String) :
    M (Ptr × Option Error) := do
  let result : Account := Account.zero
  let (bz, err) := P.hdDerive words password P.bip44HDPath
  if err.isSome then
    pure (none, err)
  else
    let result := { result with privateKeyTM := some { Key := bz } }
    let sk ← M.deref result.privateKeyTM
    let result := { result with publicKeyTM := some (P.privPubKey sk) }
    let pk ← M.deref result.publicKeyTM
    let (address, err) := P.bech32ConvertAndEncode Bech32Prefix (P.pubAddress pk)
    let result := { result with address := address }
    if err.isSome then
      pure (none, err)
    else
      let pk ← M.deref result.publicKeyTM
      let oldPK : Secp256k1.PubKey := { Key := P.pubBytes pk }
      let (legacyAddress, err) := P.bech32ConvertAndEncode "dx" (P.legacyPubAddress oldPK)
      let result := { result with legacyAddress := legacyAddress }
      if err.isSome then
        pure (none, err)
      else
        let p ← M.alloc result
        pure (p, none)

/-- The function `NewAccount`; `rand` is the randomness `NewMnemonic` draws. -/
def NewAccount (P : Prims) (rand : Bytes) (password : String) : M (Ptr × Option Error) := do
  let (mnemonic, err) := P.newMnemonic rand password
  if err.isSome then
    pure (none, err)
  else
    let m ← M.deref mnemonic
    NewAccountFromMnemonicWords P (P.mnemonicWords m) password

/-! ## Methods -/

/-- The method `WithChainID`. -/
def WithChainID (acc : Ptr) (chainID : String) : M Ptr := do
  let a ← M.load acc
  M.store acc { a with chainID := chainID }
  pure acc

/-- The method `WithAccountNumber`. -/
def WithAccountNumber (acc : Ptr) (accountNumber : Nat) : M Ptr := do
  let a ← M.load acc
  M.store acc { a with accountNumber := accountNumber }
  pure acc

/-- The method `WithSequence`. -/
def WithSequence (acc : Ptr) (sequence : Nat) : M Ptr := do
  let a ← M.load acc
  M.store acc { a with sequence := sequence }
  pure acc

/-- The method `IncrementSequence`: `acc.sequence++` on a `uint64`. -/
def IncrementSequence (acc : Ptr) : M Unit := do
  let a ← M.load acc
  M.store acc { a with sequence := (a.sequence + 1) % uint64Size }

/-- The method `Address`. -/
def Address (acc : Ptr) : M String := do
  let a ← M.load acc
  pure a.address

/-- The method `LegacyAddress`. -/
def LegacyAddress (acc : Ptr) : M String := do
  let a ← M.load acc
  pure a.legacyAddress

/-- The method `SdkAddress`. -/
def SdkAddress (P : Prims) (acc : Ptr) : M Bytes := do
  let a ← M.load acc
  let pk ← M.deref a.publicKeyTM
  pure (P.pubAddress pk)

/-- The method `ChainID`. -/
def ChainID (acc : Ptr) : M String := do
  let a ← M.load acc
  pure a.chainID

/-- The method `AccountNumber`. -/
def AccountNumber (acc : Ptr) : M Nat := do
  let a ← M.load acc
  pure a.accountNumber

/-- The method `Sequence`. -/
def Sequence (acc : Ptr) : M Nat := do
  let a ← M.load acc
  pure a.sequence

/-- The method `PubKey`: the pointer held in the field `publicKeyTM`. -/
def PubKey (acc : Ptr) : M (Option EthSecp256k1.PubKey) := do
  let a ← M.load acc
  pure a.publicKeyTM

/-- The method `ECDSA`: the conversion error is dropped. -/
def ECDSA (P : Prims) (acc : Ptr) : M (Option ECDSAPrivateKey) := do
  let a ← M.load acc
  let sk ← M.deref a.privateKeyTM
  let (pk, _) := P.privToECDSA sk
  pure pk

/-- The method `Sign`. -/
def Sign (P : Prims) (acc : Ptr) (bytesToSign : Bytes) : M (Bytes × Option Error) := do
  let a ← M.load acc
  let sk ← M.deref a.privateKeyTM
  pure (P.privSign sk bytesToSign)

/-- The call `IncrementSequence` made `n` times in a row. -/
def IncrementSequenceTimes (acc : Ptr) : Nat → M Unit
  | 0 => pure ()
  | n + 1 => do
    IncrementSequence acc
    IncrementSequenceTimes acc n

/-- The chain `acc.WithChainID(c).WithAccountNumber(n).WithSequence(s)`. -/
def configure (acc : Ptr) (c : String) (n s : Nat) : M Ptr := do
  let p1 ← WithChainID acc c
  let p2 ← WithAccountNumber p1 n
  WithSequence p2 s

/-- The first fallible step of `NewAccountFromMnemonicWords`: the HD derivation with the
fixed path. -/
def deriveStep (P : Prims) (words password : String) : Bytes × Option Error :=
  P.hdDerive words password P.bip44HDPath

/-- The public key `NewAccountFromMnemonicWords` computes from the derived bytes. -/
def derivedPubKey (P : Prims) (words password : String) : EthSecp256k1.PubKey :=
  P.privPubKey { Key := (deriveStep P words password).1 }

/-- The second fallible step: the bech32 encoding of the native address. -/
def addressStep (P : Prims) (words password : String) : String × Option Error :=
  P.bech32ConvertAndEncode Bech32Prefix (P.pubAddress (derivedPubKey P words password))

/-- The third fallible step: the bech32 encoding of the legacy address. -/
def legacyAddressStep (P : Prims) (words password : String) : String × Option Error :=
  P.bech32ConvertAndEncode "dx"
    (P.legacyPubAddress { Key := P.pubBytes (derivedPubKey P words password) })

/-- The account a successful `NewAccountFromMnemonicWords` allocates. -/
def derivedAccount (P : Prims) (words password : String) : Account :=
  { privateKeyTM := some { Key := (deriveStep P words password).1 },
    publicKeyTM := some (derivedPubKey P words password),
    address := (addressStep P words password).1,
    legacyAddress := (legacyAddressStep P words password).1,
    chainID := "", accountNumber := 0, sequence := 0 }

/-- One call on an account, as a caller may issue it after construction. -/
inductive Op where
  | WithChainID (chainID : String)
  | WithAccountNumber (accountNumber : Nat)
  | WithSequence (sequence : Nat)
  | IncrementSequence
  | Address
  | LegacyAddress
  | SdkAddress
  | ChainID
  | AccountNumber
  | Sequence
  | PubKey
  | ECDSA
  | Sign (bytesToSign : Bytes)
  deriving DecidableEq, Repr

/-- The call `op` on the receiver `acc`, its result dropped. -/
def Op.exec (P : Prims) (acc : Ptr) : Op → M Unit
  | .WithChainID c => do let _ ← Wallet.WithChainID acc c
  | .WithAccountNumber n => do let _ ← Wallet.WithAccountNumber acc n
  | .WithSequence s => do let _ ← Wallet.WithSequence acc s
  | .IncrementSequence => Wallet.IncrementSequence acc
  | .Address => do let _ ← Wallet.Address acc
  | .LegacyAddress => do let _ ← Wallet.LegacyAddress acc
  | .SdkAddress => do let _ ← Wallet.SdkAddress P acc
  | .ChainID => do let _ ← Wallet.ChainID acc
  | .AccountNumber => do let _ ← Wallet.AccountNumber acc
  | .Sequence => do let _ ← Wallet.Sequence acc
  | .PubKey => do let _ ← Wallet.PubKey acc
  | .ECDSA => do let _ ← Wallet.ECDSA P acc
  | .Sign b => do let _ ← Wallet.Sign P acc b

/-- The calls `ops` on the receiver `acc`, one after the other. -/
def Op.run (P : Prims) (acc : Ptr) : List Op → M Unit
  | [] => pure ()
  | op :: ops => do
    op.exec P acc
    Op.run P acc ops

/-- A small instance of the primitives, for evaluating the code on concrete inputs. -/
def Prims.sample : Prims where
  newMnemonic := fun rand _ =>
    if rand = [] then (none, some "no entropy") else (some { entropy := rand }, none)
  mnemonicWords := fun m => String.mk (m.entropy.map fun n => Char.ofNat (97 + n % 26))
  bip44HDPath := "m/44'/60'/0'/0/0"
  hdDerive := fun words password path =>
    if words = "" then ([], some "invalid mnemonic")
    else (words.length :: password.length :: path.length :: words.data.map Char.toNat, none)
  privPubKey := fun sk => { Key := sk.Key.map (· + 1) }
  pubAddress := fun pk => pk.Key.take 2
  pubBytes := fun pk => pk.Key
  legacyPubAddress := fun pk => pk.Key.reverse.take 2
  bech32ConvertAndEncode := fun hrp data =>
    if data = [] then ("", some "empty data")
    else (hrp ++ "1" ++ String.mk (data.map fun n => Char.ofNat (97 + n % 26)), none)
  privToECDSA := fun sk =>
    if sk.Key = [] then (none, some "invalid key")
    else (some { D := sk.Key.sum, X := 0, Y := 0 }, none)
  privSign := fun sk b =>
    if b = [] then ([], some "empty payload") else (sk.Key ++ b, none)

/-- A heap holding the single account `a` at address `0`. -/
def Heap.single (a : Account) : Heap :=
  { objs := fun i => if i = 0 then some a else none, next := 1 }

/-- The empty heap. -/
def Heap.empty : Heap := { objs := fun _ => none, next := 0 }

/-! ## Basic facts about computations -/

theorem M.bind_run {α β : Type} (m : M α) (f : α → M β) (h : Heap) :
    (m >>= f) h = M.bind m f h := rfl

theorem M.pure_run {α : Type} (a : α) (h : Heap) :
    (Pure.pure a : M α) h = (some a, h) := rfl

theorem M.load_live {h : Heap} {r : Nat} {a : Account} (hr : h.objs r = some a) :
    M.load (some r) h = (some a, h) := by
  simp [M.load, hr]

theorem M.store_live {h : Heap} {r : Nat} {a : Account} (hr : h.objs r = some a)
    (b : Account) : M.store (some r) b h = (some (), h.put r b) := by
  simp [M.store, hr]

theorem Heap.put_objs_self (h : Heap) (r : Nat) (a : Account) :
    (h.put r a).objs r = some a := by
  simp [Heap.put]

theorem Heap.put_put (h : Heap) (r : Nat) (a b : Account) :
    (h.put r a).put r b = h.put r b := by
  simp only [Heap.put, Heap.mk.injEq, and_true]
  funext i
  by_cases hi : i = r <;> simp [hi]

/-- What each setter does on a live account: it rewrites one field in place and returns
the receiver. -/
theorem WithChainID_live {h : Heap} {r : Nat} {a : Account} (hr : h.objs r = some a)
    (c : String) :
    WithChainID (some r) c h = (some (some r), h.put r { a with chainID := c }) := by
  simp [WithChainID, M.bind_run, M.bind, M.load_live hr, M.store_live hr, M.pure_run]

theorem WithAccountNumber_live {h : Heap} {r : Nat} {a : Account} (hr : h.objs r = some a)
    (n : Nat) :
    WithAccountNumber (some r) n h
      = (some (some r), h.put r { a with accountNumber := n }) := by
  simp [WithAccountNumber, M.bind_run, M.bind, M.load_live hr, M.store_live hr, M.pure_run]

theorem WithSequence_live {h : Heap} {r : Nat} {a : Account} (hr : h.objs r = some a)
    (s : Nat) :
    WithSequence (some r) s h = (some (some r), h.put r { a with sequence := s }) := by
  simp [WithSequence, M.bind_run, M.bind, M.load_live hr, M.store_live hr, M.pure_run]

theorem IncrementSequence_live {h : Heap} {r : Nat} {a : Account} (hr : h.objs r = some a) :
    IncrementSequence (some r) h
      = (some (), h.put r { a with sequence := (a.sequence + 1) % uint64Size }) := by
  simp [IncrementSequence, M.bind_run, M.bind, M.load_live hr, M.store_live hr]

theorem Sequence_live {h : Heap} {r : Nat} {a : Account} (hr : h.objs r = some a) :
    Sequence (some r) h = (some a.sequence, h) := by
  simp [Sequence, M.bind_run, M.bind, M.load_live hr, M.pure_run]

theorem ChainID_live {h : Heap} {r : Nat} {a : Account} (hr : h.objs r = some a) :
    ChainID (some r) h = (some a.chainID, h) := by
  simp [ChainID, M.bind_run, M.bind, M.load_live hr, M.pure_run]

theorem AccountNumber_live {h : Heap} {r : Nat} {a : Account} (hr : h.objs r = some a) :
    AccountNumber (some r) h = (some a.accountNumber, h) := by
  simp [AccountNumber, M.bind_run, M.bind, M.load_live hr, M.pure_run]

theorem Address_live {h : Heap} {r : Nat} {a : Account} (hr : h.objs r = some a) :
    Address (some r) h = (some a.address, h) := by
  simp [Address, M.bind_run, M.bind, M.load_live hr, M.pure_run]

theorem LegacyAddress_live {h : Heap} {r : Nat} {a : Account} (hr : h.objs r = some a) :
    LegacyAddress (some r) h = (some a.legacyAddress, h) := by
  simp [LegacyAddress, M.bind_run, M.bind, M.load_live hr, M.pure_run]

theorem PubKey_live {h : Heap} {r : Nat} {a : Account} (hr : h.objs r = some a) :
    PubKey (some r) h = (some a.publicKeyTM, h) := by
  simp [PubKey, M.bind_run, M.bind, M.load_live hr, M.pure_run]

theorem SdkAddress_live (P : Prims) {h : Heap} {r : Nat} {a : Account}
    (hr : h.objs r = some a) :
    SdkAddress P (some r) h = (a.publicKeyTM.map P.pubAddress, h) := by
  cases hk : a.publicKeyTM <;>
    simp [SdkAddress, M.bind_run, M.bind, M.load_live hr, M.pure_run, M.deref, hk]

theorem ECDSA_live (P : Prims) {h : Heap} {r : Nat} {a : Account}
    (hr : h.objs r = some a) :
    ECDSA P (some r) h = (a.privateKeyTM.map fun sk => (P.privToECDSA sk).1, h) := by
  cases hk : a.privateKeyTM <;>
    simp [ECDSA, M.bind_run, M.bind, M.load_live hr, M.pure_run, M.deref, hk]

theorem Sign_live (P : Prims) {h : Heap} {r : Nat} {a : Account}
    (hr : h.objs r = some a) (b : Bytes) :
    Sign P (some r) b h = (a.privateKeyTM.map fun sk => P.privSign sk b, h) := by
  cases hk : a.privateKeyTM <;>
    simp [Sign, M.bind_run, M.bind, M.load_live hr, M.pure_run, M.deref, hk]

/-- A receiver that reads as a live account is a non-nil pointer to an object. -/
theorem Sequence_some {h : Heap} {acc : Ptr} {s : Nat} (hs : (Sequence acc h).1 = some s) :
    ∃ r a, acc = some r ∧ h.objs r = some a ∧ a.sequence = s := by
  cases acc with
  | none => simp [Sequence, M.bind_run, M.bind, M.load] at hs
  | some r =>
    cases ha : h.objs r with
    | none => simp [Sequence, M.bind_run, M.bind, M.load, ha] at hs
    | some a =>
      rw [Sequence_live ha] at hs
      exact ⟨r, a, rfl, ha, by simpa using hs⟩

/-! ## Sequence arithmetic -/

/-- C1. Calling `IncrementSequence` `n` times on an account whose sequence is `s`, with
`s + n` representable in 64 bits, completes and leaves `Sequence()` equal to `s + n`. -/
theorem IncrementSequenceTimes_sequence (h : Heap) (acc : Ptr) (s n : Nat)
    (hs : (Sequence acc h).1 = some s) (hn : s + n < uint64Size) :
    (IncrementSequenceTimes acc n h).1 = some () ∧
      (Sequence acc (IncrementSequenceTimes acc n h).2).1 = some (s + n) := by
  induction n generalizing h s with
  | zero => exact ⟨rfl, by simpa [IncrementSequenceTimes, M.pure_run] using hs⟩
  | succ n ih =>
    obtain ⟨r, a, rfl, hr, rfl⟩ := Sequence_some hs
    have hlt : (a.sequence + 1) % uint64Size = a.sequence + 1 :=
      Nat.mod_eq_of_lt (by omega)
    have hstep : IncrementSequenceTimes (some r) (n + 1) h
        = IncrementSequenceTimes (some r) n
            (h.put r { a with sequence := a.sequence + 1 }) := by
      simp [IncrementSequenceTimes, M.bind_run, M.bind, IncrementSequence_live hr, hlt]
    have hr2 : (h.put r { a with sequence := a.sequence + 1 }).objs r
        = some { a with sequence := a.sequence + 1 } := Heap.put_objs_self _ _ _
    have := ih (h.put r { a with sequence := a.sequence + 1 }) (a.sequence + 1)
      (by rw [Sequence_live hr2]) (by omega)
    rw [hstep]
    refine ⟨this.1, ?_⟩
    rw [this.2]
    congr 1
    omega

/-- C1, at a concrete account: three increments from sequence 7 give 10. -/
theorem IncrementSequenceTimes_sequence_witness :
    (Sequence (some 0) (Heap.single { Account.zero with sequence := 7 })).1 = some 7 ∧
      7 + 3 < uint64Size ∧
      ((IncrementSequenceTimes (some 0) 3
          (Heap.single { Account.zero with sequence := 7 })).1 = some () ∧
        (Sequence (some 0) (IncrementSequenceTimes (some 0) 3
          (Heap.single { Account.zero with sequence := 7 })).2).1 = some (7 + 3)) :=
  ⟨by rfl, by decide,
    IncrementSequenceTimes_sequence (Heap.single { Account.zero with sequence := 7 })
      (some 0) 7 3 (by rfl) (by decide)⟩

/-- C9, as stated, fails at the largest `uint64`: an account configured with
`WithSequence(2^64 - 1)` reads `2^64 - 1`, and after `IncrementSequence` it reads `0`,
which is not greater. -/
theorem IncrementSequence_wraps_at_max :
    (Sequence (some 0)
        (WithSequence (some 0) 18446744073709551615 (Heap.single Account.zero)).2).1
      = some 18446744073709551615 ∧
    (Sequence (some 0)
        (IncrementSequence (some 0)
          (WithSequence (some 0) 18446744073709551615 (Heap.single Account.zero)).2).2).1
      = some 0 ∧
    ¬ (18446744073709551615 < 0) := by
  refine ⟨by rfl, by rfl, by decide⟩

/-- C9, amended. On an account whose sequence is the `uint64` value `s`,
`IncrementSequence` completes and leaves `Sequence()` equal to `(s + 1) mod 2^64`: that
is `s + 1`, strictly greater than `s`, whenever `s < 2^64 - 1`, and `0` when
`s = 2^64 - 1`. -/
theorem IncrementSequence_sequence (h : Heap) (acc : Ptr) (s : Nat)
    (hs : (Sequence acc h).1 = some s) (hu : s < uint64Size) :
    (IncrementSequence acc h).1 = some () ∧
      (Sequence acc (IncrementSequence acc h).2).1 = some ((s + 1) % uint64Size) ∧
      (s + 1 < uint64Size →
        (Sequence acc (IncrementSequence acc h).2).1 = some (s + 1) ∧ s < s + 1) ∧
      (s + 1 = uint64Size → (Sequence acc (IncrementSequence acc h).2).1 = some 0) := by
  obtain ⟨r, a, rfl, hr, rfl⟩ := Sequence_some hs
  have hr2 := Heap.put_objs_self h r { a with sequence := (a.sequence + 1) % uint64Size }
  have key : (Sequence (some r) (IncrementSequence (some r) h).2).1
      = some ((a.sequence + 1) % uint64Size) := by
    rw [IncrementSequence_live hr, Sequence_live hr2]
  refine ⟨by rw [IncrementSequence_live hr], key, ?_, ?_⟩
  · intro hlt
    rw [key, Nat.mod_eq_of_lt hlt]
    exact ⟨rfl, Nat.lt_succ_self _⟩
  · intro heq
    rw [key, heq, Nat.mod_self]

/-- C9, amended, at a concrete account with sequence 41. -/
theorem IncrementSequence_sequence_witness :
    (Sequence (some 0) (Heap.single { Account.zero with sequence := 41 })).1 = some 41 ∧
      41 < uint64Size ∧
      (Sequence (some 0)
        (IncrementSequence (some 0)
          (Heap.single { Account.zero with sequence := 41 })).2).1 = some 42 :=
  ⟨by rfl, by decide,
    ((IncrementSequence_sequence (Heap.single { Account.zero with sequence := 41 })
      (some 0) 41 (by rfl) (by decide)).2.2.1 (by decide)).1⟩

/-! ## Setters and the frame of each method -/

/-- C2. On every account, `Sequence()` reads the same before and after `WithChainID`,
`WithAccountNumber`, `Sign` (whatever it returns), `ECDSA` and every accessor; `Sign`,
`ECDSA` and the accessors leave the whole heap as it was. -/
theorem Sequence_unchanged (P : Prims) (h : Heap) (acc : Ptr) (s : Nat)
    (hs : (Sequence acc h).1 = some s) :
    (∀ c, (Sequence acc (WithChainID acc c h).2).1 = some s) ∧
    (∀ n, (Sequence acc (WithAccountNumber acc n h).2).1 = some s) ∧
    (∀ b, (Sign P acc b h).2 = h ∧ (Sequence acc (Sign P acc b h).2).1 = some s) ∧
    ((ECDSA P acc h).2 = h ∧ (Sequence acc (ECDSA P acc h).2).1 = some s) ∧
    ((Address acc h).2 = h ∧ (Sequence acc (Address acc h).2).1 = some s) ∧
    ((LegacyAddress acc h).2 = h ∧ (Sequence acc (LegacyAddress acc h).2).1 = some s) ∧
    ((SdkAddress P acc h).2 = h ∧ (Sequence acc (SdkAddress P acc h).2).1 = some s) ∧
    ((ChainID acc h).2 = h ∧ (Sequence acc (ChainID acc h).2).1 = some s) ∧
    ((AccountNumber acc h).2 = h ∧ (Sequence acc (AccountNumber acc h).2).1 = some s) ∧
    ((Sequence acc h).2 = h ∧ (Sequence acc (Sequence acc h).2).1 = some s) ∧
    ((PubKey acc h).2 = h ∧ (Sequence acc (PubKey acc h).2).1 = some s) := by
  obtain ⟨r, a, rfl, hr, rfl⟩ := Sequence_some hs
  refine ⟨?_, ?_, ?_, ?_, ?_, ?_, ?_, ?_, ?_, ?_, ?_⟩
  · intro c
    rw [WithChainID_live hr, Sequence_live (Heap.put_objs_self _ _ _)]
  · intro n
    rw [WithAccountNumber_live hr, Sequence_live (Heap.put_objs_self _ _ _)]
  · intro b
    rw [Sign_live P hr]
    exact ⟨rfl, hs⟩
  · rw [ECDSA_live P hr]
    exact ⟨rfl, hs⟩
  · rw [Address_live hr]
    exact ⟨rfl, hs⟩
  · rw [LegacyAddress_live hr]
    exact ⟨rfl, hs⟩
  · rw [SdkAddress_live P hr]
    exact ⟨rfl, hs⟩
  · rw [ChainID_live hr]
    exact ⟨rfl, hs⟩
  · rw [AccountNumber_live hr]
    exact ⟨rfl, hs⟩
  · rw [Sequence_live hr]
    exact ⟨rfl, by rw [Sequence_live hr]⟩
  · rw [PubKey_live hr]
    exact ⟨rfl, hs⟩

/-- C2, on the sample primitives: on a freshly derived account `Sign` of the empty
payload fails, `Sign` of `[1]` succeeds, and `Sequence()` reads `0` after either. -/
theorem Sequence_unchanged_witness :
    (Sequence (some 0) (Heap.empty.push (derivedAccount Prims.sample "ab" ""))).1 = some 0 ∧
    (Sign Prims.sample (some 0) []
        (Heap.empty.push (derivedAccount Prims.sample "ab" ""))).1
      = some ([], some "empty payload") ∧
    (Sequence (some 0)
        (Sign Prims.sample (some 0) []
          (Heap.empty.push (derivedAccount Prims.sample "ab" ""))).2).1 = some 0 ∧
    (Sign Prims.sample (some 0) [1]
        (Heap.empty.push (derivedAccount Prims.sample "ab" ""))).1
      = some ([2, 0, 16, 97, 98, 1], none) ∧
    (Sequence (some 0)
        (Sign Prims.sample (some 0) [1]
          (Heap.empty.push (derivedAccount Prims.sample "ab" ""))).2).1 = some 0 :=
  ⟨by rfl, by rfl,
    ((Sequence_unchanged Prims.sample (Heap.empty.push (derivedAccount Prims.sample "ab" ""))
      (some 0) 0 (by rfl)).2.2.1 []).2,
    by rfl,
    ((Sequence_unchanged Prims.sample (Heap.empty.push (derivedAccount Prims.sample "ab" ""))
      (some 0) 0 (by rfl)).2.2.1 [1]).2⟩

/-- C3. On every account, `WithChainID(x)` twice leaves the heap exactly as a single
`WithChainID(x)` does and `ChainID()` reads `x`; `WithChainID(x)` then `WithChainID(y)`
makes `ChainID()` read `y`; every string, the empty one included, is accepted: the call
returns the receiver and `ChainID()` reads the string. -/
theorem WithChainID_idempotent_last_write (h : Heap) (r : Nat) (a : Account)
    (hr : h.objs r = some a) (x y : String) :
    (WithChainID (some r) x (WithChainID (some r) x h).2).2 = (WithChainID (some r) x h).2 ∧
    (ChainID (some r) (WithChainID (some r) x (WithChainID (some r) x h).2).2).1 = some x ∧
    (ChainID (some r) (WithChainID (some r) y (WithChainID (some r) x h).2).2).1 = some y ∧
    (WithChainID (some r) x h).1 = some (some r) ∧
    (ChainID (some r) (WithChainID (some r) x h).2).1 = some x ∧
    (WithChainID (some r) "" h).1 = some (some r) ∧
    (ChainID (some r) (WithChainID (some r) "" h).2).1 = some "" := by
  have e1 : ∀ z, WithChainID (some r) z h = (some (some r), h.put r { a with chainID := z }) :=
    fun z => WithChainID_live hr z
  have e2 : ∀ z w, WithChainID (some r) w (h.put r { a with chainID := z })
      = (some (some r), h.put r { a with chainID := w }) := by
    intro z w
    rw [WithChainID_live (Heap.put_objs_self _ _ _), Heap.put_put]
  have e3 : ∀ z, ChainID (some r) (h.put r { a with chainID := z })
      = (some z, h.put r { a with chainID := z }) :=
    fun z => ChainID_live (Heap.put_objs_self _ _ _)
  simp only [e1, e2, e3, and_self]

/-- C3, at a concrete account. -/
theorem WithChainID_idempotent_last_write_witness :
    (Heap.single Account.zero).objs 0 = some Account.zero ∧
    (ChainID (some 0)
      (WithChainID (some 0) "decimal_2020-1"
        (WithChainID (some 0) "devnet" (Heap.single Account.zero)).2).2).1
      = some "decimal_2020-1" :=
  ⟨rfl, (WithChainID_idempotent_last_write (Heap.single Account.zero) 0 Account.zero rfl
      "devnet" "decimal_2020-1").2.2.1⟩

/-- C4. On every account, each of `WithChainID`, `WithAccountNumber` and `WithSequence`
returns the receiver pointer and rewrites only its own field of the object (nothing else
in the heap changes); so the chain `a.WithChainID(c).WithAccountNumber(n).WithSequence(s)`
returns `a`, after which `ChainID()`, `AccountNumber()`, `Sequence()` read `c`, `n`, `s`
and the keys, address and legacy address are those of `a` before. -/
theorem configure_fluent (h : Heap) (r : Nat) (a : Account) (hr : h.objs r = some a)
    (c : String) (n s : Nat) :
    WithChainID (some r) c h = (some (some r), h.put r { a with chainID := c }) ∧
    WithAccountNumber (some r) n h
      = (some (some r), h.put r { a with accountNumber := n }) ∧
    WithSequence (some r) s h = (some (some r), h.put r { a with sequence := s }) ∧
    configure (some r) c n s h
      = (some (some r),
          h.put r { a with chainID := c, accountNumber := n, sequence := s }) ∧
    (ChainID (some r) (configure (some r) c n s h).2).1 = some c ∧
    (AccountNumber (some r) (configure (some r) c n s h).2).1 = some n ∧
    (Sequence (some r) (configure (some r) c n s h).2).1 = some s ∧
    (PubKey (some r) (configure (some r) c n s h).2).1 = some a.publicKeyTM ∧
    (Address (some r) (configure (some r) c n s h).2).1 = some a.address ∧
    (LegacyAddress (some r) (configure (some r) c n s h).2).1 = some a.legacyAddress ∧
    (∀ b, (configure (some r) c n s h).2.objs r = some b →
      b.privateKeyTM = a.privateKeyTM ∧ b.publicKeyTM = a.publicKeyTM) := by
  have hc : configure (some r) c n s h
      = (some (some r),
          h.put r { a with chainID := c, accountNumber := n, sequence := s }) := by
    simp only [configure, M.bind_run, M.bind, WithChainID_live hr,
      WithAccountNumber_live (Heap.put_objs_self _ _ _),
      WithSequence_live (Heap.put_objs_self _ _ _), Heap.put_put]
  have hr2 := Heap.put_objs_self h r
    { a with chainID := c, accountNumber := n, sequence := s }
  refine ⟨WithChainID_live hr c, WithAccountNumber_live hr n, WithSequence_live hr s, hc,
    ?_, ?_, ?_, ?_, ?_, ?_, ?_⟩
  · rw [hc, ChainID_live hr2]
  · rw [hc, AccountNumber_live hr2]
  · rw [hc, Sequence_live hr2]
  · rw [hc, PubKey_live hr2]
  · rw [hc, Address_live hr2]
  · rw [hc, LegacyAddress_live hr2]
  · intro b hb
    rw [hc] at hb
    simp only [hr2, Option.some.injEq] at hb
    subst hb
    exact ⟨rfl, rfl⟩

/-- C4, at a concrete account. -/
theorem configure_fluent_witness :
    (Heap.single Account.zero).objs 0 = some Account.zero ∧
    (configure (some 0) "devnet" 12 3 (Heap.single Account.zero)).1 = some (some 0) ∧
    (Sequence (some 0) (configure (some 0) "devnet" 12 3 (Heap.single Account.zero)).2).1
      = some 3 :=
  ⟨rfl,
    by rw [(configure_fluent (Heap.single Account.zero) 0 Account.zero rfl
      "devnet" 12 3).2.2.2.1],
    (configure_fluent (Heap.single Account.zero) 0 Account.zero rfl
      "devnet" 12 3).2.2.2.2.2.2.1⟩

/-! ## Construction -/

/-- What `NewAccountFromMnemonicWords` does, step by step. -/
theorem NewAccountFromMnemonicWords_run (P : Prims) (words password : String) (h : Heap) :
    NewAccountFromMnemonicWords P words password h =
      if (deriveStep P words password).2.isSome then
        (some (none, (deriveStep P words password).2), h)
      else if (addressStep P words password).2.isSome then
        (some (none, (addressStep P words password).2), h)
      else if (legacyAddressStep P words password).2.isSome then
        (some (none, (legacyAddressStep P words password).2), h)
      else
        (some (some h.next, none), h.push (derivedAccount P words password)) := by
  unfold NewAccountFromMnemonicWords
  by_cases h1 : (deriveStep P words password).2.isSome
  · simp only [deriveStep] at h1
    simp [deriveStep, h1, M.pure_run]
  · by_cases h2 : (addressStep P words password).2.isSome
    · simp only [deriveStep] at h1
      simp only [addressStep, derivedPubKey, deriveStep] at h2
      simp [deriveStep, addressStep, derivedPubKey, h1, h2, M.pure_run, M.bind_run, M.bind,
        M.deref, Account.zero]
    · by_cases h3 : (legacyAddressStep P words password).2.isSome
      · simp only [deriveStep] at h1
        simp only [addressStep, derivedPubKey, deriveStep] at h2
        simp only [legacyAddressStep, derivedPubKey, deriveStep] at h3
        simp [deriveStep, addressStep, legacyAddressStep, derivedPubKey, h1, h2, h3,
          M.pure_run, M.bind_run, M.bind, M.deref, Account.zero]
      · simp only [deriveStep] at h1
        simp only [addressStep, derivedPubKey, deriveStep] at h2
        simp only [legacyAddressStep, derivedPubKey, deriveStep] at h3
        simp [deriveStep, addressStep, legacyAddressStep, derivedPubKey, derivedAccount,
          h1, h2, h3, M.pure_run, M.bind_run, M.bind, M.deref, M.alloc, Heap.push,
          Account.zero]

/-- What `NewAccount` does when `NewMnemonic` fails. -/
theorem NewAccount_of_mnemonic_error (P : Prims) (rand : Bytes) (password : String)
    (h : Heap) (he : (P.newMnemonic rand password).2.isSome) :
    NewAccount P rand password h = (some (none, (P.newMnemonic rand password).2), h) := by
  simp [NewAccount, he, M.pure_run]

/-- What `NewAccount` does when `NewMnemonic` returns a mnemonic. -/
theorem NewAccount_of_mnemonic (P : Prims) (rand : Bytes) (password : String) (h : Heap)
    (m : Mnemonic) (hm : P.newMnemonic rand password = (some m, none)) :
    NewAccount P rand password h
      = NewAccountFromMnemonicWords P (P.mnemonicWords m) password h := by
  simp [NewAccount, hm, M.bind_run, M.bind, M.deref]

/-- C5. Two calls of `NewAccountFromMnemonicWords` with the same words and password, made
on any two heaps, either both return nil and the same error, or both return a non-nil
account and no error, and the two accounts have the same private key, public key, address
and legacy address (they are equal objects). When the second call follows the first on
the same heap, it returns a different pointer and the first account is still there. -/
theorem NewAccountFromMnemonicWords_deterministic (P : Prims) (words password : String)
    (h1 h2 : Heap) :
    ((∃ e : Error,
        (NewAccountFromMnemonicWords P words password h1).1 = some (none, some e) ∧
        (NewAccountFromMnemonicWords P words password h2).1 = some (none, some e)) ∨
     (∃ (r1 r2 : Nat) (a1 a2 : Account),
        (NewAccountFromMnemonicWords P words password h1).1 = some (some r1, none) ∧
        (NewAccountFromMnemonicWords P words password h2).1 = some (some r2, none) ∧
        (NewAccountFromMnemonicWords P words password h1).2.objs r1 = some a1 ∧
        (NewAccountFromMnemonicWords P words password h2).2.objs r2 = some a2 ∧
        a1.privateKeyTM = a2.privateKeyTM ∧ a1.publicKeyTM = a2.publicKeyTM ∧
        a1.address = a2.address ∧ a1.legacyAddress = a2.legacyAddress ∧ a1 = a2 ∧
        (h2 = (NewAccountFromMnemonicWords P words password h1).2 →
          r1 ≠ r2 ∧
          (NewAccountFromMnemonicWords P words password h2).2.objs r1 = some a1))) := by
  rw [NewAccountFromMnemonicWords_run P words password h1,
    NewAccountFromMnemonicWords_run P words password h2]
  by_cases c1 : (deriveStep P words password).2.isSome
  · obtain ⟨e, he⟩ := Option.isSome_iff_exists.mp c1
    exact Or.inl ⟨e, by simp [he], by simp [he]⟩
  · by_cases c2 : (addressStep P words password).2.isSome
    · obtain ⟨e, he⟩ := Option.isSome_iff_exists.mp c2
      exact Or.inl ⟨e, by simp [c1, he], by simp [c1, he]⟩
    · by_cases c3 : (legacyAddressStep P words password).2.isSome
      · obtain ⟨e, he⟩ := Option.isSome_iff_exists.mp c3
        exact Or.inl ⟨e, by simp [c1, c2, he], by simp [c1, c2, he]⟩
      · refine Or.inr ⟨h1.next, h2.next, derivedAccount P words password,
          derivedAccount P words password, ?_⟩
        simp only [c1, c2, c3, Bool.false_eq_true, if_false, Heap.push, if_true, true_and,
          and_true]
        intro h
        subst h
        simp

/-- C6. `NewAccountFromMnemonicWords` never panics and returns either nil with a non-nil
error or a non-nil account with a nil error. It returns nil and an error exactly when the
HD derivation or one of the two bech32 encodings fails; the error is that of the first
step that fails, and no account is allocated. Otherwise the account returned has every
derived field set (both keys non-nil, both addresses) and zero configuration fields.
`NewAccount` returns nil and the error of `NewMnemonic` when that fails, and whenever it
returns, it returns nil with an error or a fully initialised account with none. -/
theorem NewAccountFromMnemonicWords_all_or_nothing (P : Prims) (words password : String)
    (h : Heap) :
    (∃ p e h', NewAccountFromMnemonicWords P words password h = (some (p, e), h') ∧
      ((p = none ∧ e ≠ none) ↔
        ((deriveStep P words password).2 ≠ none ∨ (addressStep P words password).2 ≠ none ∨
          (legacyAddressStep P words password).2 ≠ none)) ∧
      ((deriveStep P words password).2 ≠ none → e = (deriveStep P words password).2) ∧
      ((deriveStep P words password).2 = none →
        (addressStep P words password).2 ≠ none → e = (addressStep P words password).2) ∧
      ((deriveStep P words password).2 = none → (addressStep P words password).2 = none →
        (legacyAddressStep P words password).2 ≠ none →
          e = (legacyAddressStep P words password).2) ∧
      (e ≠ none → p = none ∧ h' = h) ∧
      (e = none → ∃ r a, p = some r ∧ h'.objs r = some a ∧
        a.privateKeyTM = some { Key := (P.hdDerive words password P.bip44HDPath).1 } ∧
        a.publicKeyTM
          = some (P.privPubKey { Key := (P.hdDerive words password P.bip44HDPath).1 }) ∧
        a.address = (addressStep P words password).1 ∧
        a.legacyAddress = (legacyAddressStep P words password).1 ∧
        a.chainID = "" ∧ a.accountNumber = 0 ∧ a.sequence = 0)) ∧
    (∀ rand, (P.newMnemonic rand password).2 ≠ none →
      NewAccount P rand password h = (some (none, (P.newMnemonic rand password).2), h)) ∧
    (∀ rand p e h', NewAccount P rand password h = (some (p, e), h') →
      (p = none ∧ e ≠ none ∧ h' = h) ∨
      (e = none ∧ ∃ r m, p = some r ∧ P.newMnemonic rand password = (some m, none) ∧
        h'.objs r = some (derivedAccount P (P.mnemonicWords m) password))) := by
  refine ⟨?_, ?_, ?_⟩
  · rw [NewAccountFromMnemonicWords_run P words password h]
    by_cases c1 : (deriveStep P words password).2.isSome
    · have n1 : (deriveStep P words password).2 ≠ none := Option.isSome_iff_ne_none.mp c1
      refine ⟨none, (deriveStep P words password).2, h, by simp [c1], ?_⟩
      simp [n1]
    · have n1 : (deriveStep P words password).2 = none := by simpa using c1
      by_cases c2 : (addressStep P words password).2.isSome
      · have n2 : (addressStep P words password).2 ≠ none := Option.isSome_iff_ne_none.mp c2
        refine ⟨none, (addressStep P words password).2, h, by simp [c1, c2], ?_⟩
        simp [n1, n2]
      · have n2 : (addressStep P words password).2 = none := by simpa using c2
        by_cases c3 : (legacyAddressStep P words password).2.isSome
        · have n3 : (legacyAddressStep P words password).2 ≠ none :=
            Option.isSome_iff_ne_none.mp c3
          refine ⟨none, (legacyAddressStep P words password).2, h, by simp [c1, c2, c3], ?_⟩
          simp [n1, n2, n3]
        · have n3 : (legacyAddressStep P words password).2 = none := by simpa using c3
          refine ⟨some h.next, none, h.push (derivedAccount P words password),
            by simp [c1, c2, c3], ?_⟩
          have n1' : (P.hdDerive words password P.bip44HDPath).2 = none := n1
          simp [n1, n2, n3, n1', Heap.push, derivedAccount, derivedPubKey, deriveStep]
  · intro rand he
    exact NewAccount_of_mnemonic_error P rand password h (Option.isSome_iff_ne_none.mpr he)
  · intro rand p e h' hrun
    by_cases c0 : (P.newMnemonic rand password).2.isSome
    · rw [NewAccount_of_mnemonic_error P rand password h c0] at hrun
      simp only [Prod.mk.injEq, Option.some.injEq] at hrun
      obtain ⟨⟨rfl, rfl⟩, rfl⟩ := hrun
      exact Or.inl ⟨rfl, Option.isSome_iff_ne_none.mp c0, rfl⟩
    · have n0 : (P.newMnemonic rand password).2 = none := by simpa using c0
      cases hm : (P.newMnemonic rand password).1 with
      | none =>
        have hpair : P.newMnemonic rand password = (none, none) := Prod.ext hm n0
        simp [NewAccount, hpair, M.bind_run, M.bind, M.deref] at hrun
      | some m =>
        have hpair : P.newMnemonic rand password = (some m, none) := Prod.ext hm n0
        rw [NewAccount_of_mnemonic P rand password h m hpair,
          NewAccountFromMnemonicWords_run] at hrun
        by_cases c1 : (deriveStep P (P.mnemonicWords m) password).2.isSome
        · simp only [c1, if_true, Prod.mk.injEq, Option.some.injEq] at hrun
          obtain ⟨⟨rfl, rfl⟩, rfl⟩ := hrun
          exact Or.inl ⟨rfl, Option.isSome_iff_ne_none.mp c1, rfl⟩
        · by_cases c2 : (addressStep P (P.mnemonicWords m) password).2.isSome
          · simp only [c1, c2, if_true, Bool.false_eq_true, if_false, Prod.mk.injEq,
              Option.some.injEq] at hrun
            obtain ⟨⟨rfl, rfl⟩, rfl⟩ := hrun
            exact Or.inl ⟨rfl, Option.isSome_iff_ne_none.mp c2, rfl⟩
          · by_cases c3 : (legacyAddressStep P (P.mnemonicWords m) password).2.isSome
            · simp only [c1, c2, c3, if_true, Bool.false_eq_true, if_false, Prod.mk.injEq,
                Option.some.injEq] at hrun
              obtain ⟨⟨rfl, rfl⟩, rfl⟩ := hrun
              exact Or.inl ⟨rfl, Option.isSome_iff_ne_none.mp c3, rfl⟩
            · simp only [c1, c2, c3, Bool.false_eq_true, if_false, Prod.mk.injEq,
                Option.some.injEq] at hrun
              obtain ⟨⟨rfl, rfl⟩, rfl⟩ := hrun
              exact Or.inr ⟨rfl, h.next, m, rfl, hpair, by simp [Heap.push]⟩

/-- A call that returns no error went through all three steps and allocated the derived
account at the next free address. -/
theorem NewAccountFromMnemonicWords_ok {P : Prims} {words password : String} {h h' : Heap}
    {p : Ptr} (hrun : NewAccountFromMnemonicWords P words password h = (some (p, none), h')) :
    (deriveStep P words password).2 = none ∧ (addressStep P words password).2 = none ∧
      (legacyAddressStep P words password).2 = none ∧ p = some h.next ∧
      h' = h.push (derivedAccount P words password) := by
  rw [NewAccountFromMnemonicWords_run] at hrun
  by_cases c1 : (deriveStep P words password).2.isSome
  · simp only [c1, if_true, Prod.mk.injEq, Option.some.injEq] at hrun
    rw [hrun.1.2] at c1
    simp at c1
  · by_cases c2 : (addressStep P words password).2.isSome
    · simp only [c1, c2, if_true, Bool.false_eq_true, if_false, Prod.mk.injEq,
        Option.some.injEq] at hrun
      rw [hrun.1.2] at c2
      simp at c2
    · by_cases c3 : (legacyAddressStep P words password).2.isSome
      · simp only [c1, c2, c3, if_true, Bool.false_eq_true, if_false, Prod.mk.injEq,
          Option.some.injEq] at hrun
        rw [hrun.1.2] at c3
        simp at c3
      · simp only [c1, c2, c3, Bool.false_eq_true, if_false, Prod.mk.injEq,
          Option.some.injEq] at hrun
        exact ⟨by simpa using c1, by simpa using c2, by simpa using c3, hrun.1.1.symm,
          hrun.2.symm⟩

theorem Heap.push_objs_next (h : Heap) (a : Account) : (h.push a).objs h.next = some a := by
  simp [Heap.push]

/-- C8. After a successful `NewAccountFromMnemonicWords(words, password)` the private key
holds exactly the bytes the HD derivation returned for the fixed BIP44 path, `PubKey()` is
the public key of that private key, `Address()` is the bech32 encoding with prefix "d0"
(the constant `Bech32Prefix`) of the native address of that public key, and
`LegacyAddress()` is the bech32 encoding with the different prefix "dx" of the legacy
address computed over the bytes of the same public key. -/
theorem NewAccountFromMnemonicWords_addresses (P : Prims) (words password : String)
    (h h' : Heap) (p : Ptr)
    (hrun : NewAccountFromMnemonicWords P words password h = (some (p, none), h')) :
    ∃ r bz pk addr leg a, p = some r ∧
      P.hdDerive words password P.bip44HDPath = (bz, none) ∧
      h'.objs r = some a ∧ a.privateKeyTM = some { Key := bz } ∧
      pk = P.privPubKey { Key := bz } ∧
      (PubKey (some r) h').1 = some (some pk) ∧
      (Address (some r) h').1 = some addr ∧
      (LegacyAddress (some r) h').1 = some leg ∧
      Bech32Prefix = "d0" ∧
      P.bech32ConvertAndEncode "d0" (P.pubAddress pk) = (addr, none) ∧
      P.bech32ConvertAndEncode "dx" (P.legacyPubAddress { Key := P.pubBytes pk })
        = (leg, none) ∧
      "d0" ≠ "dx" := by
  obtain ⟨n1, n2, n3, rfl, rfl⟩ := NewAccountFromMnemonicWords_ok hrun
  have hr := Heap.push_objs_next h (derivedAccount P words password)
  refine ⟨h.next, (deriveStep P words password).1, derivedPubKey P words password,
    (addressStep P words password).1, (legacyAddressStep P words password).1,
    derivedAccount P words password, rfl, Prod.ext rfl n1, hr, rfl, rfl, ?_, ?_, ?_, rfl,
    Prod.ext rfl n2, Prod.ext rfl n3, by decide⟩
  · rw [PubKey_live hr]
    rfl
  · rw [Address_live hr]
    rfl
  · rw [LegacyAddress_live hr]
    rfl

/-- C8, on the sample primitives. -/
theorem NewAccountFromMnemonicWords_addresses_witness :
    NewAccountFromMnemonicWords Prims.sample "ab" "" Heap.empty
        = (some (some 0, none), Heap.empty.push (derivedAccount Prims.sample "ab" "")) ∧
      ∃ r bz pk addr leg a, some 0 = some r ∧
        Prims.sample.hdDerive "ab" "" Prims.sample.bip44HDPath = (bz, none) ∧
        (Heap.empty.push (derivedAccount Prims.sample "ab" "")).objs r = some a ∧
        a.privateKeyTM = some { Key := bz } ∧
        pk = Prims.sample.privPubKey { Key := bz } ∧
        (PubKey (some r) (Heap.empty.push (derivedAccount Prims.sample "ab" ""))).1
          = some (some pk) ∧
        (Address (some r) (Heap.empty.push (derivedAccount Prims.sample "ab" ""))).1
          = some addr ∧
        (LegacyAddress (some r) (Heap.empty.push (derivedAccount Prims.sample "ab" ""))).1
          = some leg ∧
        Bech32Prefix = "d0" ∧
        Prims.sample.bech32ConvertAndEncode "d0" (Prims.sample.pubAddress pk)
          = (addr, none) ∧
        Prims.sample.bech32ConvertAndEncode "dx"
            (Prims.sample.legacyPubAddress { Key := Prims.sample.pubBytes pk })
          = (leg, none) ∧
        "d0" ≠ "dx" :=
  ⟨by rfl, NewAccountFromMnemonicWords_addresses Prims.sample "ab" "" Heap.empty
      (Heap.empty.push (derivedAccount Prims.sample "ab" "")) (some 0) (by rfl)⟩

/-! ## Calls after construction -/

/-- One call on a live account leaves an account at the same address with the same keys
and addresses; with both keys present the call does not panic. -/
theorem Op.exec_keeps (P : Prims) {h : Heap} {r : Nat} {a : Account}
    (hr : h.objs r = some a) (op : Op) :
    ∃ b, (op.exec P (some r) h).2.objs r = some b ∧
      b.privateKeyTM = a.privateKeyTM ∧ b.publicKeyTM = a.publicKeyTM ∧
      b.address = a.address ∧ b.legacyAddress = a.legacyAddress ∧
      (a.privateKeyTM ≠ none → a.publicKeyTM ≠ none →
        (op.exec P (some r) h).1 = some ()) := by
  cases op with
  | WithChainID c =>
    refine ⟨{ a with chainID := c }, ?_, rfl, rfl, rfl, rfl, ?_⟩ <;>
      simp [Op.exec, M.bind_run, M.bind, WithChainID_live hr, Heap.put_objs_self, M.pure_run]
  | WithAccountNumber n =>
    refine ⟨{ a with accountNumber := n }, ?_, rfl, rfl, rfl, rfl, ?_⟩ <;>
      simp [Op.exec, M.bind_run, M.bind, WithAccountNumber_live hr, Heap.put_objs_self,
        M.pure_run]
  | WithSequence s =>
    refine ⟨{ a with sequence := s }, ?_, rfl, rfl, rfl, rfl, ?_⟩ <;>
      simp [Op.exec, M.bind_run, M.bind, WithSequence_live hr, Heap.put_objs_self, M.pure_run]
  | IncrementSequence =>
    refine ⟨{ a with sequence := (a.sequence + 1) % uint64Size }, ?_, rfl, rfl, rfl, rfl, ?_⟩ <;>
      simp [Op.exec, IncrementSequence_live hr, Heap.put_objs_self]
  | Address =>
    refine ⟨a, ?_, rfl, rfl, rfl, rfl, ?_⟩ <;>
      simp [Op.exec, M.bind_run, M.bind, Address_live hr, hr, M.pure_run]
  | LegacyAddress =>
    refine ⟨a, ?_, rfl, rfl, rfl, rfl, ?_⟩ <;>
      simp [Op.exec, M.bind_run, M.bind, LegacyAddress_live hr, hr, M.pure_run]
  | SdkAddress =>
    refine ⟨a, ?_, rfl, rfl, rfl, rfl, ?_⟩
    · cases hk : a.publicKeyTM <;>
        simp [Op.exec, M.bind_run, M.bind, SdkAddress_live P hr, hr, M.pure_run, hk]
    · intro _ hk
      obtain ⟨pk, hpk⟩ := Option.ne_none_iff_exists.mp hk
      simp [Op.exec, M.bind_run, M.bind, SdkAddress_live P hr, M.pure_run, ← hpk]
  | ChainID =>
    refine ⟨a, ?_, rfl, rfl, rfl, rfl, ?_⟩ <;>
      simp [Op.exec, M.bind_run, M.bind, ChainID_live hr, hr, M.pure_run]
  | AccountNumber =>
    refine ⟨a, ?_, rfl, rfl, rfl, rfl, ?_⟩ <;>
      simp [Op.exec, M.bind_run, M.bind, AccountNumber_live hr, hr, M.pure_run]
  | Sequence =>
    refine ⟨a, ?_, rfl, rfl, rfl, rfl, ?_⟩ <;>
      simp [Op.exec, M.bind_run, M.bind, Sequence_live hr, hr, M.pure_run]
  | PubKey =>
    refine ⟨a, ?_, rfl, rfl, rfl, rfl, ?_⟩ <;>
      simp [Op.exec, M.bind_run, M.bind, PubKey_live hr, hr, M.pure_run]
  | ECDSA =>
    refine ⟨a, ?_, rfl, rfl, rfl, rfl, ?_⟩
    · cases hk : a.privateKeyTM <;>
        simp [Op.exec, M.bind_run, M.bind, ECDSA_live P hr, hr, M.pure_run, hk]
    · intro hk _
      obtain ⟨sk, hsk⟩ := Option.ne_none_iff_exists.mp hk
      simp [Op.exec, M.bind_run, M.bind, ECDSA_live P hr, M.pure_run, ← hsk]
  | Sign bytesToSign =>
    refine ⟨a, ?_, rfl, rfl, rfl, rfl, ?_⟩
    · cases hk : a.privateKeyTM <;>
        simp [Op.exec, M.bind_run, M.bind, Sign_live P hr, hr, M.pure_run, hk]
    · intro hk _
      obtain ⟨sk, hsk⟩ := Option.ne_none_iff_exists.mp hk
      simp [Op.exec, M.bind_run, M.bind, Sign_live P hr, M.pure_run, ← hsk]

/-- Any sequence of calls on a live account leaves an account at the same address with
the same keys and addresses; with both keys present no call panics. -/
theorem Op.run_keeps (P : Prims) (ops : List Op) {h : Heap} {r : Nat} {a : Account}
    (hr : h.objs r = some a) :
    ∃ b, (Op.run P (some r) ops h).2.objs r = some b ∧
      b.privateKeyTM = a.privateKeyTM ∧ b.publicKeyTM = a.publicKeyTM ∧
      b.address = a.address ∧ b.legacyAddress = a.legacyAddress ∧
      (a.privateKeyTM ≠ none → a.publicKeyTM ≠ none →
        (Op.run P (some r) ops h).1 = some ()) := by
  induction ops generalizing h a with
  | nil => exact ⟨a, hr, rfl, rfl, rfl, rfl, fun _ _ => rfl⟩
  | cons op ops ih =>
    obtain ⟨b, hb, e1, e2, e3, e4, hok⟩ := Op.exec_keeps P hr op
    cases hres : (op.exec P (some r) h).1 with
    | none =>
      have hrun : Op.run P (some r) (op :: ops) h = (none, (op.exec P (some r) h).2) := by
        simp only [Op.run, M.bind_run, M.bind]
        rw [show op.exec P (some r) h = (none, (op.exec P (some r) h).2) from
          Prod.ext hres rfl]
      refine ⟨b, by rw [hrun]; exact hb, e1, e2, e3, e4, ?_⟩
      intro k1 k2
      rw [hok k1 k2] at hres
      cases hres
    | some u =>
      have hrun : Op.run P (some r) (op :: ops) h
          = Op.run P (some r) ops (op.exec P (some r) h).2 := by
        simp only [Op.run, M.bind_run, M.bind]
        rw [show op.exec P (some r) h = (some u, (op.exec P (some r) h).2) from
          Prod.ext hres rfl]
      obtain ⟨c, hc, f1, f2, f3, f4, hok2⟩ := ih hb
      rw [hrun]
      refine ⟨c, hc, f1.trans e1, f2.trans e2, f3.trans e3, f4.trans e4, ?_⟩
      intro k1 k2
      exact hok2 (by rw [e1]; exact k1) (by rw [e2]; exact k2)

/-- C7. For an account produced by `NewAccountFromMnemonicWords` and any finite sequence
of later calls on it (`WithChainID`, `WithAccountNumber`, `WithSequence`,
`IncrementSequence`, `Sign`, `ECDSA`, the accessors), no call panics, and afterwards
`Address()`, `LegacyAddress()`, `PubKey()` and the private key are what they were right
after construction, and `Address()` is the bech32 encoding under `Bech32Prefix` of the
bytes `SdkAddress()` returns. -/
theorem identity_immutable (P : Prims) (words password : String) (h h1 : Heap) (p : Ptr)
    (hrun : NewAccountFromMnemonicWords P words password h = (some (p, none), h1))
    (ops : List Op) :
    (Op.run P p ops h1).1 = some () ∧
    (Address p (Op.run P p ops h1).2).1 = (Address p h1).1 ∧
    (LegacyAddress p (Op.run P p ops h1).2).1 = (LegacyAddress p h1).1 ∧
    (PubKey p (Op.run P p ops h1).2).1 = (PubKey p h1).1 ∧
    (∃ r a b sk, p = some r ∧ h1.objs r = some a ∧ (Op.run P p ops h1).2.objs r = some b ∧
      a.privateKeyTM = some sk ∧ b.privateKeyTM = some sk) ∧
    (∃ addr bytes, (Address p (Op.run P p ops h1).2).1 = some addr ∧
      (SdkAddress P p (Op.run P p ops h1).2).1 = some bytes ∧
      P.bech32ConvertAndEncode Bech32Prefix bytes = (addr, none)) := by
  obtain ⟨_, n2, _, rfl, rfl⟩ := NewAccountFromMnemonicWords_ok hrun
  have hr := Heap.push_objs_next h (derivedAccount P words password)
  obtain ⟨b, hb, e1, e2, e3, e4, hok⟩ := Op.run_keeps P ops hr
  have k2 : b.publicKeyTM = some (derivedPubKey P words password) := e2
  refine ⟨hok (by simp [derivedAccount]) (by simp [derivedAccount]), ?_, ?_, ?_, ?_, ?_⟩
  · rw [Address_live hb, Address_live hr, e3]
  · rw [LegacyAddress_live hb, LegacyAddress_live hr, e4]
  · rw [PubKey_live hb, PubKey_live hr, e2]
  · exact ⟨h.next, derivedAccount P words password, b, _, rfl, hr, hb, rfl, e1⟩
  · refine ⟨(addressStep P words password).1,
      P.pubAddress (derivedPubKey P words password), ?_, ?_, Prod.ext rfl n2⟩
    · rw [Address_live hb, e3]
      rfl
    · rw [SdkAddress_live P hb, k2]
      rfl

/-- C7, on the sample primitives: a fresh account, reconfigured, incremented and used
for signing, still reads the address it was created with. -/
theorem identity_immutable_witness :
    NewAccountFromMnemonicWords Prims.sample "ab" "" Heap.empty
        = (some (some 0, none), Heap.empty.push (derivedAccount Prims.sample "ab" "")) ∧
      (Address (some 0)
          (Op.run Prims.sample (some 0)
            [Op.WithChainID "devnet", Op.WithSequence 5, Op.IncrementSequence, Op.Sign [1, 2],
              Op.ECDSA, Op.SdkAddress]
            (Heap.empty.push (derivedAccount Prims.sample "ab" ""))).2).1
        = (Address (some 0) (Heap.empty.push (derivedAccount Prims.sample "ab" ""))).1 ∧
      (Address (some 0) (Heap.empty.push (derivedAccount Prims.sample "ab" ""))).1
        = some "d01db" :=
  ⟨by rfl,
    (identity_immutable Prims.sample "ab" "" Heap.empty
      (Heap.empty.push (derivedAccount Prims.sample "ab" "")) (some 0) (by rfl)
      [Op.WithChainID "devnet", Op.WithSequence 5, Op.IncrementSequence, Op.Sign [1, 2],
        Op.ECDSA, Op.SdkAddress]).2.1,
    by rfl⟩

/-- C6, on the sample primitives: without entropy `NewMnemonic` fails, and `NewAccount`
returns nil, that error, and an untouched heap. -/
theorem NewAccountFromMnemonicWords_all_or_nothing_witness :
    NewAccount Prims.sample [] "pw" Heap.empty
      = (some (none, some "no entropy"), Heap.empty) :=
  (NewAccountFromMnemonicWords_all_or_nothing Prims.sample "" "pw" Heap.empty).2.1 []
    (by decide)

/-- C5, on the sample primitives: the words "ab" derived on the empty heap and on a heap
that already holds an account. -/
theorem NewAccountFromMnemonicWords_deterministic_witness :
    ∃ (r1 r2 : Nat) (a1 a2 : Account),
      (NewAccountFromMnemonicWords Prims.sample "ab" "" Heap.empty).1
        = some (some r1, none) ∧
      (NewAccountFromMnemonicWords Prims.sample "ab" "" (Heap.single Account.zero)).1
        = some (some r2, none) ∧
      (NewAccountFromMnemonicWords Prims.sample "ab" "" Heap.empty).2.objs r1 = some a1 ∧
      (NewAccountFromMnemonicWords Prims.sample "ab" "" (Heap.single Account.zero)).2.objs r2
        = some a2 ∧
      a1 = a2 := by
  rcases NewAccountFromMnemonicWords_deterministic Prims.sample "ab" "" Heap.empty
    (Heap.single Account.zero) with ⟨e, he, _⟩ | ⟨r1, r2, a1, a2, h1, h2, h3, h4, _, _, _, _, h5, _⟩
  · have hok : (NewAccountFromMnemonicWords Prims.sample "ab" "" Heap.empty).1
        = some (some 0, none) := by rfl
    rw [hok] at he
    simp at he
  · exact ⟨r1, r2, a1, a2, h1, h2, h3, h4, h5⟩

end Wallet
